import Mathlib

/-!
Verification of the XanaAI RAG backend core against its specification.

The TypeScript sources are shallowly embedded:
* a JS string is modelled as a `List Char` where character-level operations
  matter (the chunker of `RagIngestService`), and as `String` elsewhere;
* JS numbers used as indices/sizes are `Nat`, series values are `Int`
  (exact values; every `Int` is finite, so `Number.isFinite` filters nothing);
* the `while` loop of `chunkByTokens` is embedded with an explicit fuel
  parameter, `none` meaning the fuel ran out before the loop exited;
* network calls (completion service, Postgres, Milvus, Alerta) are modelled
  by an environment record carrying their responses, and the orchestrator
  additionally returns the list of external calls it performed.
-/

namespace XanaAI

/-! ### Chunker: `RagIngestService.chunkByTokens` (rag.module.ts, lines 533-564)

`text.split(/\s+/).filter(Boolean)` splits the input at runs of whitespace
and drops empty pieces.  We model the JS whitespace class by the four ASCII
whitespace characters that can occur in the ingested text. -/

def isWs (c : Char) : Bool :=
  c = ' ' || c = '\t' || c = '\n' || c = '\r'

/-- Accumulator-based splitting at whitespace runs: `acc` holds the
(reversed) characters of the word currently being read. -/
def splitWsAux : List Char → List Char → List (List Char)
  | [], acc => if acc = [] then [] else [acc.reverse]
  | c :: rest, acc =>
    if isWs c then
      if acc = [] then splitWsAux rest [] else acc.reverse :: splitWsAux rest []
    else
      splitWsAux rest (c :: acc)

/-- Source: `text.split(/\s+/).filter(Boolean)`. -/
def splitWs (s : List Char) : List (List Char) :=
  splitWsAux s []

/-- Source: `words.join(' ')`. -/
def joinSp : List (List Char) → List Char
  | [] => []
  | [w] => w
  | w :: rest => w ++ ' ' :: joinSp rest

/-- Source: `String.prototype.trim`. -/
def jsTrim (s : List Char) : List Char :=
  (((s.dropWhile isWs).reverse).dropWhile isWs).reverse

/-- Holds when `pat` is a prefix of `s` (character-wise). -/
def beginsWith : List Char → List Char → Bool
  | [], _ => true
  | _ :: _, [] => false
  | c :: p, d :: s => c = d && beginsWith p s

/-- Source: `String.prototype.lastIndexOf` — the largest index at which `pat`
occurs in `s`, `none` standing for the JS result `-1`. -/
def jsLastIndexOf (s pat : List Char) : Option Nat :=
  (((List.range (s.length + 1)).filter (fun i => beginsWith pat (s.drop i)))).getLast?

/-- The paragraph-break marker searched for by `chunkByTokens`. -/
def nlnl : List Char := ['\n', '\n']

/-- One `while` iteration plus the rest of the loop of `chunkByTokens`
(rag.module.ts 542-562), with fuel; `none` = the loop did not exit within
`fuel` iterations.  `ws` is the word list, `start` the cursor, `chunks`
the accumulator. -/
def chunkLoop (ws : List (List Char)) (minT maxT ov : Nat) :
    Nat → Nat → List (List Char) → Option (List (List Char))
  | 0, _, _ => none
  | fuel + 1, start, chunks =>
    if start < ws.length then
      -- const target = Math.min(words.length, start + maxTokens); let end = target;
      let target := min ws.length (start + maxT)
      -- const windowText = words.slice(start, target).join(' ');
      let windowText := joinSp ((ws.drop start).take (target - start))
      -- const localBreak = windowText.lastIndexOf('\n\n'); (backtrack branch)
      let endIdx :=
        match jsLastIndexOf windowText nlnl with
        | some localBreak =>
          let upto := windowText.take localBreak
          let uptoCount := (splitWs upto).length
          if minT ≤ uptoCount then start + uptoCount else target
        | none => target
      -- const piece = words.slice(start, end).join(' ').trim(); if (piece) push
      let piece := jsTrim (joinSp ((ws.drop start).take (endIdx - start)))
      let chunks2 := if piece = [] then chunks else chunks ++ [piece]
      -- if (end >= words.length) break;  start = Math.max(0, end - overlap);
      if ws.length ≤ endIdx then some chunks2
      else chunkLoop ws minT maxT ov fuel (endIdx - ov) chunks2
    else some chunks

/-- Source: `RagIngestService.chunkByTokens(text, minTokens, maxTokens, overlap)`,
with explicit fuel for the `while` loop. -/
def chunkByTokens (text : List Char) (minT maxT ov fuel : Nat) :
    Option (List (List Char)) :=
  let words := splitWs text
  if words.length = 0 then some [] else chunkLoop words minT maxT ov fuel 0 []

/-! #### Word-splitting lemmas -/

theorem splitWsAux_sound : ∀ (s acc : List Char), (∀ c ∈ acc, isWs c = false) →
    ∀ w ∈ splitWsAux s acc, w ≠ [] ∧ ∀ c ∈ w, isWs c = false := by
  intro s
  induction s with
  | nil =>
    intro acc hacc w hw
    by_cases h : acc = []
    · simp [splitWsAux, h] at hw
    · simp only [splitWsAux, if_neg h] at hw
      rcases List.mem_singleton.1 hw with rfl
      refine ⟨by simpa using h, fun c hc => hacc c (by simpa using hc)⟩
  | cons c rest ih =>
    intro acc hacc w hw
    by_cases hws : isWs c = true
    · by_cases h : acc = []
      · simp only [splitWsAux, hws, if_true, if_pos h] at hw
        exact ih [] (by simp) w hw
      · simp only [splitWsAux, hws, if_true, if_neg h] at hw
        rcases List.mem_cons.1 hw with rfl | hw2
        · exact ⟨by simpa using h, fun x hx => hacc x (by simpa using hx)⟩
        · exact ih [] (by simp) w hw2
    · rw [Bool.not_eq_true] at hws
      simp only [splitWsAux, hws, Bool.false_eq_true, if_false] at hw
      refine ih (c :: acc) ?_ w hw
      intro x hx
      rcases List.mem_cons.1 hx with rfl | hx2
      · exact hws
      · exact hacc x hx2

theorem splitWs_sound (s : List Char) :
    ∀ w ∈ splitWs s, w ≠ [] ∧ ∀ c ∈ w, isWs c = false :=
  splitWsAux_sound s [] (by simp)

theorem splitWsAux_append_word : ∀ (w s acc : List Char),
    (∀ c ∈ w, isWs c = false) →
    splitWsAux (w ++ s) acc = splitWsAux s (w.reverse ++ acc) := by
  intro w
  induction w with
  | nil => intro s acc _; simp
  | cons c t ih =>
    intro s acc hw
    have hc : isWs c = false := hw c (by simp)
    simp only [List.cons_append, splitWsAux, hc, Bool.false_eq_true, if_false]
    show splitWsAux (t ++ s) (c :: acc) = splitWsAux s ((c :: t).reverse ++ acc)
    rw [ih s (c :: acc) (fun x hx => hw x (by simp [hx]))]
    simp [List.append_assoc]

theorem splitWs_joinSp : ∀ (l : List (List Char)),
    (∀ w ∈ l, w ≠ [] ∧ ∀ c ∈ w, isWs c = false) → splitWs (joinSp l) = l := by
  intro l
  induction l with
  | nil => intro _; rfl
  | cons w rest ih =>
    intro h
    obtain ⟨hwne, hwf⟩ := h w (by simp)
    cases rest with
    | nil =>
      show splitWs w = [w]
      unfold splitWs
      have h1 := splitWsAux_append_word w [] [] hwf
      rw [List.append_nil] at h1
      rw [h1]
      have h2 : w.reverse ++ ([] : List Char) = w.reverse := List.append_nil _
      rw [h2]
      have h3 : w.reverse ≠ [] := by simpa using hwne
      simp [splitWsAux, h3]
    | cons r rs =>
      show splitWs (w ++ ' ' :: joinSp (r :: rs)) = w :: r :: rs
      unfold splitWs
      rw [splitWsAux_append_word w _ [] hwf, List.append_nil]
      have hsp : isWs ' ' = true := by decide
      have h3 : w.reverse ≠ [] := by simpa using hwne
      simp only [splitWsAux, hsp, if_true, if_neg h3, List.reverse_reverse]
      congr 1
      exact ih (fun x hx => h x (by simp [hx]))

theorem splitWsAux_dropWhile (s : List Char) :
    splitWsAux (s.dropWhile isWs) [] = splitWsAux s [] := by
  induction s with
  | nil => rfl
  | cons c t ih =>
    by_cases hc : isWs c = true
    · rw [List.dropWhile_cons, if_pos hc, ih]
      simp [splitWsAux, hc]
    · rw [Bool.not_eq_true] at hc
      rw [List.dropWhile_cons, if_neg (by simp [hc])]

theorem splitWsAux_append_ws : ∀ (s acc : List Char) (c : Char), isWs c = true →
    splitWsAux (s ++ [c]) acc = splitWsAux s acc := by
  intro s
  induction s with
  | nil =>
    intro acc c hc
    by_cases h : acc = [] <;> simp [splitWsAux, hc, h]
  | cons d t ih =>
    intro acc c hc
    by_cases hd : isWs d = true
    · by_cases h : acc = [] <;>
        simp [splitWsAux, hd, h, ih [] c hc]
    · rw [Bool.not_eq_true] at hd
      simp [splitWsAux, hd, ih (d :: acc) c hc]

theorem splitWs_dropWhileRight : ∀ (r : List Char),
    splitWs ((r.dropWhile isWs).reverse) = splitWs r.reverse := by
  intro r
  induction r with
  | nil => rfl
  | cons c t ih =>
    by_cases hc : isWs c = true
    · rw [List.dropWhile_cons, if_pos hc, ih]
      show splitWsAux t.reverse [] = splitWsAux (c :: t).reverse []
      rw [List.reverse_cons, splitWsAux_append_ws t.reverse [] c hc]
    · rw [Bool.not_eq_true] at hc
      rw [List.dropWhile_cons, if_neg (by simp [hc])]

theorem splitWs_jsTrim (s : List Char) : splitWs (jsTrim s) = splitWs s := by
  unfold jsTrim
  rw [splitWs_dropWhileRight ((s.dropWhile isWs).reverse), List.reverse_reverse]
  exact splitWsAux_dropWhile s

/-! #### `joinSp` membership and the dead paragraph-break branch -/

theorem mem_joinSp {c : Char} : ∀ {l : List (List Char)},
    c ∈ joinSp l → c = ' ' ∨ ∃ w ∈ l, c ∈ w := by
  intro l
  induction l with
  | nil => intro h; simp [joinSp] at h
  | cons w rest ih =>
    intro h
    cases rest with
    | nil => exact Or.inr ⟨w, by simp, by simpa [joinSp] using h⟩
    | cons r rs =>
      rw [show joinSp (w :: r :: rs) = w ++ ' ' :: joinSp (r :: rs) from rfl] at h
      rcases List.mem_append.1 h with hw | hr
      · exact Or.inr ⟨w, by simp, hw⟩
      · rcases List.mem_cons.1 hr with rfl | hr2
        · exact Or.inl rfl
        · rcases ih hr2 with h1 | ⟨w', hw', hcw⟩
          · exact Or.inl h1
          · exact Or.inr ⟨w', by simp [hw'], hcw⟩

theorem mem_joinSp_of_mem : ∀ {l : List (List Char)} {w : List Char} {c : Char},
    w ∈ l → c ∈ w → c ∈ joinSp l := by
  intro l
  induction l with
  | nil => simp
  | cons w0 rest ih =>
    intro w c hw hc
    cases rest with
    | nil =>
      rcases List.mem_singleton.1 hw with rfl
      simpa [joinSp] using hc
    | cons r rs =>
      show c ∈ w0 ++ ' ' :: joinSp (r :: rs)
      rcases List.mem_cons.1 hw with rfl | hw2
      · exact List.mem_append.2 (Or.inl hc)
      · exact List.mem_append.2 (Or.inr (List.mem_cons.2 (Or.inr (ih hw2 hc))))

theorem beginsWith_nlnl_mem {l : List Char} (h : beginsWith nlnl l = true) :
    '\n' ∈ l := by
  cases l with
  | nil => simp [nlnl, beginsWith] at h
  | cons d t =>
    simp only [nlnl, beginsWith, Bool.and_eq_true, decide_eq_true_eq] at h
    exact List.mem_cons.2 (Or.inl h.1)

theorem jsLastIndexOf_nlnl_none {s : List Char} (h : '\n' ∉ s) :
    jsLastIndexOf s nlnl = none := by
  unfold jsLastIndexOf
  have hfil : ((List.range (s.length + 1)).filter
      (fun i => beginsWith nlnl (s.drop i))) = [] := by
    refine List.filter_eq_nil_iff.2 ?_
    intro i _
    simp only [Bool.not_eq_true]
    by_contra hb
    rw [Bool.not_eq_false] at hb
    exact h (List.mem_of_mem_drop (beginsWith_nlnl_mem hb))
  rw [hfil]
  rfl

theorem no_newline_in_window {wl : List (List Char)}
    (h : ∀ x ∈ wl, ∀ c ∈ x, isWs c = false) : '\n' ∉ joinSp wl := by
  intro hn
  rcases mem_joinSp hn with h1 | ⟨w, hw, hcw⟩
  · exact absurd h1 (by decide)
  · have := h w hw '\n' hcw
    simp [isWs] at this

/-! #### `jsTrim` on whitespace-free joins -/

theorem mem_dropWhile_of_mem {p : Char → Bool} :
    ∀ {l : List Char} {c : Char}, c ∈ l → p c = false → c ∈ l.dropWhile p := by
  intro l
  induction l with
  | nil => intro c hc; cases hc
  | cons d t ih =>
    intro c hc hp
    by_cases hd : p d = true
    · rw [List.dropWhile_cons, if_pos hd]
      rcases List.mem_cons.1 hc with rfl | hc2
      · rw [hp] at hd; cases hd
      · exact ih hc2 hp
    · rw [List.dropWhile_cons, if_neg hd]
      exact hc

theorem jsTrim_ne_nil {s : List Char} {c : Char} (hc : c ∈ s)
    (hp : isWs c = false) : jsTrim s ≠ [] := by
  intro h
  unfold jsTrim at h
  rw [List.reverse_eq_nil_iff] at h
  have h1 : c ∈ s.dropWhile isWs := mem_dropWhile_of_mem hc hp
  have h2 : c ∈ (s.dropWhile isWs).reverse := List.mem_reverse.2 h1
  have h3 := mem_dropWhile_of_mem h2 hp
  rw [h] at h3
  cases h3

/-! #### Overlap structure of the produced chunks -/

/-- Adjacent chunks overlap in exactly `ov` tokens: the first `ov` words of
each chunk are the last `ov` words of its predecessor. -/
def Adj {α : Type} (ov : Nat) : List (List α) → Prop
  | [] => True
  | [_] => True
  | c1 :: c2 :: rest => c2.take ov = c1.drop (c1.length - ov) ∧ Adj ov (c2 :: rest)

/-- Concatenation of the chunks after removing every chunk's leading `ov`-word
overlap (the first chunk has no predecessor, so it is kept whole). -/
def dropOverlaps {α : Type} (ov : Nat) : List (List α) → List α
  | [] => []
  | c :: rest => c ++ (rest.map (fun w => w.drop ov)).flatten

/-- Every candidate window of `chunkByTokens` trims to a non-empty piece:
the window holds at least one word and words are non-empty and
whitespace-free. -/
theorem piece_ne_nil (ws : List (List Char)) (start k : Nat)
    (hws : ∀ x ∈ ws, x ≠ [] ∧ ∀ c ∈ x, isWs c = false)
    (hstart : start < ws.length) (hk : 1 ≤ k) :
    jsTrim (joinSp ((ws.drop start).take k)) ≠ [] := by
  have hlen : (ws.drop start).length = ws.length - start := List.length_drop ..
  have hdropne : ws.drop start ≠ [] := by
    intro h
    rw [h] at hlen
    simp at hlen
    omega
  obtain ⟨w0, t0, hw0⟩ := List.exists_cons_of_ne_nil hdropne
  have hw0mem : w0 ∈ ws := List.mem_of_mem_drop (hw0 ▸ List.mem_cons_self w0 t0)
  obtain ⟨hne, hnw⟩ := hws w0 hw0mem
  obtain ⟨c0, t1, hc0⟩ := List.exists_cons_of_ne_nil hne
  have hc0w : c0 ∈ w0 := hc0 ▸ List.mem_cons_self c0 t1
  have hwin : w0 ∈ (ws.drop start).take k := by
    rw [hw0]
    cases k with
    | zero => omega
    | succ k2 => exact List.mem_cons_self _ _
  exact jsTrim_ne_nil (mem_joinSp_of_mem hwin hc0w) (hnw c0 hc0w)

/-- One iteration of the `while` loop: because the word list is produced by
splitting at whitespace, the window text never contains `'\n\n'`, so the
paragraph-break backtracking of lines 546-552 is dead code and the cut is
always at `target = min(len, start+maxTokens)`. -/
theorem chunkLoop_step (ws : List (List Char)) (minT maxT ov fuel start : Nat)
    (chunks : List (List Char))
    (hws : ∀ x ∈ ws, x ≠ [] ∧ ∀ c ∈ x, isWs c = false)
    (hmax : 1 ≤ maxT) (hstart : start < ws.length) :
    chunkLoop ws minT maxT ov (fuel + 1) start chunks =
      if ws.length ≤ start + maxT then
        some (chunks ++ [jsTrim (joinSp (ws.drop start))])
      else
        chunkLoop ws minT maxT ov fuel (start + maxT - ov)
          (chunks ++ [jsTrim (joinSp ((ws.drop start).take maxT))]) := by
  have hwin : ∀ k, ∀ x ∈ (ws.drop start).take k, x ∈ ws := fun k x hx =>
    List.mem_of_mem_drop (List.mem_of_mem_take hx)
  have hnl : ∀ k, '\n' ∉ joinSp ((ws.drop start).take k) := fun k =>
    no_newline_in_window (fun x hx c hc => (hws x (hwin k x hx)).2 c hc)
  simp only [chunkLoop]
  rw [if_pos hstart]
  rw [jsLastIndexOf_nlnl_none (hnl (min ws.length (start + maxT) - start))]
  have hpiece := piece_ne_nil ws start (min ws.length (start + maxT) - start)
    hws hstart (by omega)
  rw [if_neg hpiece]
  by_cases hc : ws.length ≤ start + maxT
  · have hmin : min ws.length (start + maxT) = ws.length := Nat.min_eq_left hc
    rw [hmin]
    rw [List.take_of_length_le (le_of_eq (List.length_drop ..))]
    rw [if_pos (le_refl ws.length), if_pos hc]
  · have hmin : min ws.length (start + maxT) = start + maxT := by omega
    rw [hmin, Nat.add_sub_cancel_left]
    rw [if_neg hc, if_neg hc]

/-- Main loop invariant: with `overlap < maxTokens` and enough fuel, the loop
returns, each produced chunk is the trimmed space-join of a window of the
word list, the first window starts at the cursor, adjacent windows share
exactly `overlap` words, and removing the leading overlaps reconstructs the
word list from the cursor on. -/
theorem chunkLoop_spec (ws : List (List Char))
    (hws : ∀ x ∈ ws, x ≠ [] ∧ ∀ c ∈ x, isWs c = false)
    (minT maxT ov : Nat) (hov : ov < maxT) :
    ∀ fuel start chunks, start < ws.length → ws.length - start ≤ fuel →
    ∃ tail : List (List (List Char)),
      chunkLoop ws minT maxT ov fuel start chunks
        = some (chunks ++ tail.map (fun w => jsTrim (joinSp w)))
      ∧ tail.head? = some ((ws.drop start).take (min maxT (ws.length - start)))
      ∧ Adj ov tail
      ∧ dropOverlaps ov tail = ws.drop start
      ∧ ∀ w ∈ tail, ∀ x ∈ w, x ∈ ws := by
  intro fuel
  induction fuel with
  | zero => intro start chunks h1 h2; omega
  | succ f ih =>
    intro start chunks hstart hfuel
    rw [chunkLoop_step ws minT maxT ov f start chunks hws (by omega) hstart]
    by_cases hc : ws.length ≤ start + maxT
    · rw [if_pos hc]
      refine ⟨[ws.drop start], by simp, ?_, trivial, by simp [dropOverlaps], ?_⟩
      · have hmin : min maxT (ws.length - start) = ws.length - start := by omega
        rw [hmin, List.take_of_length_le (le_of_eq (List.length_drop ..))]
        rfl
      · intro w hw x hx
        rcases List.mem_singleton.1 hw with rfl
        exact List.mem_of_mem_drop hx
    · rw [if_neg hc]
      have hlt : start + maxT < ws.length := by omega
      obtain ⟨tail', e1, e2, e3, e4, e5⟩ :=
        ih (start + maxT - ov)
          (chunks ++ [jsTrim (joinSp ((ws.drop start).take maxT))])
          (by omega) (by omega)
      cases tail' with
      | nil => simp at e2
      | cons h2 r2 =>
        have he2 : h2 = (ws.drop (start + maxT - ov)).take
            (min maxT (ws.length - (start + maxT - ov))) := by
          simpa using e2
        have hwlen : ((ws.drop start).take maxT).length = maxT := by
          rw [List.length_take, List.length_drop]
          omega
        have hA : ((ws.drop start).take maxT).drop (maxT - ov)
            = (ws.drop (start + maxT - ov)).take ov := by
          rw [List.drop_take, List.drop_drop]
          congr 1
          · omega
          · congr 1
            omega
        have hB : h2.take ov = (ws.drop (start + maxT - ov)).take ov := by
          rw [he2, List.take_take]
          congr 1
          omega
        have hh2len : ov ≤ h2.length := by
          rw [he2, List.length_take, List.length_drop]
          omega
        refine ⟨(ws.drop start).take maxT :: h2 :: r2, ?_, ?_, ?_, ?_, ?_⟩
        · rw [e1]
          simp
        · have hmin : min maxT (ws.length - start) = maxT := by omega
          rw [hmin]
          rfl
        · exact ⟨by rw [hwlen, hB, hA], e3⟩
        · show (ws.drop start).take maxT
              ++ ((h2 :: r2).map (fun w => w.drop ov)).flatten = ws.drop start
          have hkey : h2.drop ov ++ ((r2.map (fun w => w.drop ov)).flatten)
              = ws.drop (start + maxT) := by
            have e4' : h2 ++ (r2.map (fun w => w.drop ov)).flatten
                = ws.drop (start + maxT - ov) := e4
            have hd : (ws.drop (start + maxT - ov)).drop ov
                = ws.drop (start + maxT) := by
              rw [List.drop_drop]
              congr 1
              omega
            rw [← hd, ← e4', List.drop_append_eq_append_drop,
              Nat.sub_eq_zero_of_le hh2len, List.drop_zero]
          have hsplit : ws.drop start
              = (ws.drop start).take maxT ++ ws.drop (start + maxT) := by
            have h6 := List.take_append_drop maxT (ws.drop start)
            rw [List.drop_drop] at h6
            exact h6.symm
          rw [List.map_cons, List.flatten_cons, hkey]
          exact hsplit.symm
        · intro w hw x hx
          rcases List.mem_cons.1 hw with rfl | hw2
          · exact List.mem_of_mem_drop (List.mem_of_mem_take hx)
          · exact e5 w hw2 x hx

/-- The `while` loop of `chunkByTokens` exits for the given fuel. -/
def ChunkTerminates (text : List Char) (minT maxT ov : Nat) : Prop :=
  ∃ fuel, (chunkByTokens text minT maxT ov fuel).isSome

/-- Claim C3: for every text and all parameters with
`0 ≤ overlapTokens < maxTokens`, consecutive chunks produced by
`chunkByTokens` share exactly `overlapTokens` words (the first
`overlapTokens` words of each chunk are the last `overlapTokens` words of
its predecessor), and removing each later chunk's leading
`overlapTokens`-word overlap and concatenating reconstructs the token
sequence of the input. -/
theorem C3_overlap_and_reconstruction (text : List Char) (minT maxT ov fuel : Nat)
    (hov : ov < maxT) (hfuel : (splitWs text).length ≤ fuel) :
    ∃ cs, chunkByTokens text minT maxT ov fuel = some cs
      ∧ Adj ov (cs.map splitWs)
      ∧ dropOverlaps ov (cs.map splitWs) = splitWs text := by
  by_cases h0 : (splitWs text).length = 0
  · refine ⟨[], ?_, trivial, ?_⟩
    · simp [chunkByTokens, h0]
    · show dropOverlaps ov ([] : List (List (List Char))) = splitWs text
      rw [List.length_eq_zero.1 h0]
      rfl
  · obtain ⟨tail, e1, _, e3, e4, e5⟩ := chunkLoop_spec (splitWs text)
      (splitWs_sound text) minT maxT ov hov fuel 0 [] (by omega) (by omega)
    have hback : ∀ w ∈ tail, splitWs (jsTrim (joinSp w)) = w := by
      intro w hw
      rw [splitWs_jsTrim]
      exact splitWs_joinSp w (fun x hx => splitWs_sound text x (e5 w hw x hx))
    have hmap : (tail.map (fun w => jsTrim (joinSp w))).map splitWs = tail := by
      rw [List.map_map]
      calc tail.map (splitWs ∘ fun w => jsTrim (joinSp w))
          = tail.map id := List.map_congr_left hback
        _ = tail := List.map_id tail
    refine ⟨tail.map (fun w => jsTrim (joinSp w)), ?_, ?_, ?_⟩
    · simp only [chunkByTokens]
      rw [if_neg h0]
      rw [e1]
      simp
    · rw [hmap]
      exact e3
    · rw [hmap, e4]
      exact List.drop_zero _
/-- Witness for C3 at a concrete input. -/
theorem C3_overlap_and_reconstruction_witness :
    ((1 : Nat) < 2 ∧ (splitWs ("a b c d".data)).length ≤ 4)
    ∧ ∃ cs, chunkByTokens ("a b c d".data) 1 2 1 4 = some cs
        ∧ Adj 1 (cs.map splitWs)
        ∧ dropOverlaps 1 (cs.map splitWs) = splitWs ("a b c d".data) :=
  ⟨⟨by decide, by decide⟩,
    C3_overlap_and_reconstruction ("a b c d".data) 1 2 1 4 (by decide) (by decide)⟩

/-- Claim C4 (code bug): on an input containing a paragraph break inside the
candidate window, the chunker does NOT cut at the break: splitting on
`/\s+/` removes all newlines, so the space-joined window text never
contains `'\n\n'` and the backtracking branch is unreachable.  Here the
claim requires the first chunk to be `"a b c"`; the code returns the whole
window as a single chunk. -/
theorem C4_no_paragraph_cut :
    chunkByTokens ("a b c\n\nd e f g h".data) 1 8 0 9
      = some [("a b c d e f g h".data)]
    ∧ ("a b c d e f g h".data) ≠ ("a b c".data) := by
  exact ⟨by decide, by decide⟩

/-- Counterexample to claim C5 as stated: with `overlapTokens = maxTokens`
(here both 1) the cursor update `start = max(0, end - overlap)` makes no
progress, the loop never reaches the end of the input, and no amount of
fuel makes it exit. -/
theorem C5_counterexample : ¬ ChunkTerminates ("a b".data) 200 1 1 := by
  have hloop : ∀ fuel chunks,
      chunkLoop [['a'], ['b']] 200 1 1 fuel 0 chunks = none := by
    intro fuel
    induction fuel with
    | zero => intro chunks; rfl
    | succ f ih =>
      intro chunks
      have hstep : chunkLoop [['a'], ['b']] 200 1 1 (f + 1) 0 chunks
          = chunkLoop [['a'], ['b']] 200 1 1 f 0 (chunks ++ [['a']]) := rfl
      rw [hstep]
      exact ih _
  rintro ⟨fuel, hf⟩
  have hsw : splitWs ("a b".data) = [['a'], ['b']] := rfl
  simp only [chunkByTokens, hsw] at hf
  rw [if_neg (by decide : ¬([['a'], ['b']] : List (List Char)).length = 0)] at hf
  rw [hloop fuel []] at hf
  simp at hf

/-- Claim C5 amended: the loop terminates for every input whenever
`overlapTokens < maxTokens` (fuel one step per word suffices). -/
theorem C5_terminates_when_overlap_lt_max (text : List Char)
    (minT maxT ov fuel : Nat) (hov : ov < maxT)
    (hfuel : (splitWs text).length ≤ fuel) :
    (chunkByTokens text minT maxT ov fuel).isSome := by
  by_cases h0 : (splitWs text).length = 0
  · simp [chunkByTokens, h0]
  · obtain ⟨tail, e1, _⟩ := chunkLoop_spec (splitWs text) (splitWs_sound text)
      minT maxT ov hov fuel 0 [] (by omega) (by omega)
    simp only [chunkByTokens]
    rw [if_neg h0, e1]
    rfl
/-- Witness for C5's amended theorem at a concrete input. -/
theorem C5_terminates_witness :
    ((1 : Nat) < 2 ∧ (splitWs ("a b c".data)).length ≤ 3)
    ∧ (chunkByTokens ("a b c".data) 200 2 1 3).isSome :=
  ⟨⟨by decide, by decide⟩,
    C5_terminates_when_overlap_lt_max ("a b c".data) 200 2 1 3 (by decide) (by decide)⟩

/-- Counterexample to claim C10 as stated: with `maxTokens < minTokens`
the input `"a b"` has fewer than `minTokens = 3` words, yet chunking with
`maxTokens = 1` yields two chunks, not one chunk holding everything. -/
theorem C10_counterexample :
    (("a b".data : List Char) ≠ [] ∧ (splitWs ("a b".data)).length < 3)
    ∧ (chunkByTokens ("a b".data) 3 1 0 5).map List.length = some 2
    ∧ (2 : Nat) ≠ 1 := by
  refine ⟨⟨by decide, by decide⟩, by decide, by decide⟩

/-- Claim C10 amended: chunking the empty string yields the empty sequence
(for all parameters), and — provided `minTokens ≤ maxTokens` — chunking any
input with a non-empty token sequence of fewer than `minTokens` words
yields exactly one chunk containing the entire input's token sequence. -/
theorem C10_empty_and_short_inputs (text : List Char) (minT maxT ov fuel : Nat)
    (hmm2 : minT ≤ maxT) (hne : splitWs text ≠ [])
    (hshort : (splitWs text).length < minT) (hfuel : 1 ≤ fuel) :
    (∀ minT2 maxT2 ov2 fuel2 : Nat, chunkByTokens [] minT2 maxT2 ov2 fuel2 = some [])
    ∧ ∃ c, chunkByTokens text minT maxT ov fuel = some [c]
        ∧ splitWs c = splitWs text := by
  constructor
  · intro minT2 maxT2 ov2 fuel2; rfl
  · obtain ⟨f, rfl⟩ : ∃ f, fuel = f + 1 := ⟨fuel - 1, by omega⟩
    have hlen0 : 0 < (splitWs text).length := List.length_pos.2 hne
    have hstep := chunkLoop_step (splitWs text) minT maxT ov f 0 []
      (splitWs_sound text) (by omega) (by omega)
    rw [if_pos (by omega : (splitWs text).length ≤ 0 + maxT)] at hstep
    refine ⟨jsTrim (joinSp ((splitWs text).drop 0)), ?_, ?_⟩
    · simp only [chunkByTokens]
      rw [if_neg (by omega), hstep]
      simp
    · rw [List.drop_zero, splitWs_jsTrim]
      exact splitWs_joinSp _ (splitWs_sound text)
/-- Witness for C10's amended theorem at a concrete input. -/
theorem C10_empty_and_short_inputs_witness :
    ((3 : Nat) ≤ 3 ∧ splitWs ("a b".data) ≠ []
      ∧ (splitWs ("a b".data)).length < 3 ∧ (1 : Nat) ≤ 1)
    ∧ ((∀ minT2 maxT2 ov2 fuel2 : Nat,
          chunkByTokens [] minT2 maxT2 ov2 fuel2 = some [])
      ∧ ∃ c, chunkByTokens ("a b".data) 3 3 0 1 = some [c]
          ∧ splitWs c = splitWs ("a b".data)) :=
  ⟨⟨by decide, by decide, by decide, by decide⟩,
    C10_empty_and_short_inputs ("a b".data) 3 3 0 1 (by decide) (by decide)
      (by decide) (by decide)⟩

/-! ### Embedding Adapter: the `fit` closure of `IonosService.createEmbeddings`
(ionos.service.ts, lines 65-79).  Vector entries are modelled as `Int`
(exact values; the claims are about lengths and structural content). -/

/-- Source: `fit(v)` — unchanged if the length already equals `targetDim`, truncated
if longer; otherwise `out = Array(targetDim).fill(0)` followed by the copy
loop `out[i] = v[i]`, modelled as indexing with default `0`. -/
def fitEmbedding (targetDim : Nat) (v : List Int) : List Int :=
  if v.length = targetDim then v
  else if targetDim < v.length then v.take targetDim
  else (List.range targetDim).map (fun i => v.getD i 0)

/-- Source: each returned embedding is fitted before being handed back. -/
def createEmbeddingsFit (targetDim : Nat) (vs : List (List Int)) : List (List Int) :=
  vs.map (fitEmbedding targetDim)

theorem fitPad_eq : ∀ (v : List Int) (D : Nat), v.length ≤ D →
    (List.range D).map (fun i => v.getD i 0)
      = v ++ List.replicate (D - v.length) 0 := by
  intro v
  induction v with
  | nil =>
    intro D _
    simp [List.map_const']
  | cons a t ih =>
    intro D hD
    obtain ⟨D2, rfl⟩ : ∃ D2, D = D2 + 1 := ⟨D - 1, by simp at hD; omega⟩
    rw [List.range_succ_eq_map, List.map_cons, List.map_map]
    have h1 : ((fun i => (a :: t).getD i 0) ∘ Nat.succ) = fun i => t.getD i 0 := by
      funext i
      simp [Function.comp]
    rw [h1, ih D2 (by simpa using hD)]
    simp

/-- Claim C7: for every target dimension `D` and every vector returned by
the embedding service, the fitted embedding has length exactly `D`; longer
inputs are truncated to their first `D` coordinates, shorter inputs are
zero-padded, inputs of length `D` are unchanged. -/
theorem C7_fit_embedding (D : Nat) (v : List Int) :
    (fitEmbedding D v).length = D
    ∧ (D < v.length → fitEmbedding D v = v.take D)
    ∧ (v.length < D → fitEmbedding D v = v ++ List.replicate (D - v.length) 0)
    ∧ (v.length = D → fitEmbedding D v = v) := by
  unfold fitEmbedding
  refine ⟨?_, ?_, ?_, ?_⟩
  · by_cases h1 : v.length = D
    · rw [if_pos h1]; exact h1
    · rw [if_neg h1]
      by_cases h2 : D < v.length
      · rw [if_pos h2, List.length_take]; omega
      · rw [if_neg h2]; simp
  · intro h
    rw [if_neg (by omega), if_pos h]
  · intro h
    rw [if_neg (by omega), if_neg (by omega)]
    exact fitPad_eq v D (by omega)
  · intro h
    rw [if_pos h]
/-- Witness for C7 at concrete inputs (truncation, padding, identity). -/
theorem C7_fit_embedding_witness :
    ((2 : Nat) < ([5, 6, 7] : List Int).length
      ∧ ([5, 6, 7] : List Int).length < 4 ∧ ([5, 6, 7] : List Int).length = 3)
    ∧ fitEmbedding 2 [5, 6, 7] = ([5, 6, 7] : List Int).take 2
    ∧ fitEmbedding 4 [5, 6, 7]
        = ([5, 6, 7] : List Int) ++ List.replicate (4 - ([5, 6, 7] : List Int).length) 0
    ∧ fitEmbedding 3 [5, 6, 7] = [5, 6, 7] :=
  ⟨⟨by decide, by decide, by decide⟩,
    (C7_fit_embedding 2 [5, 6, 7]).2.1 (by decide),
    (C7_fit_embedding 4 [5, 6, 7]).2.2.1 (by decide),
    (C7_fit_embedding 3 [5, 6, 7]).2.2.2 (by decide)⟩

/-! ### Ingestion dedup: the chunk loops of `RagIngestService.ingestFolder`
(rag.module.ts 281-299) and `RagIngestService.processPdfs` (382-404).

`sha256` is modelled by an injective placeholder (the identity on strings):
the dedup logic depends only on hash equality mirroring input equality.
Note the two loops fingerprint differently: JSON-LD chunks hash the chunk
content, PDF chunks hash `pdfFileHash + ':' + content`. -/

def sha256 (s : String) : String := s

structure UploadRec where
  fp : String
  content : String
  kind : String
deriving DecidableEq

structure IngestState where
  seenHashes : List String
  seenPdfFileHashes : List String
  uploaded : List UploadRec
deriving DecidableEq

/-- Source: ingestFolder 282-299 — `const hash = sha256(ch); if (seenHashes.has(hash))
return; seenHashes.add(hash); childDocs.push(...)`. -/
def jsonChunkStep (st : IngestState) (ch : String) : IngestState :=
  let h := sha256 ch
  if h ∈ st.seenHashes then st
  else ⟨h :: st.seenHashes, st.seenPdfFileHashes, st.uploaded ++ [⟨h, ch, "jsonld"⟩]⟩

def ingestJsonSource (st : IngestState) (chunks : List String) : IngestState :=
  chunks.foldl jsonChunkStep st

/-- Source: processPdfs 385-405 — `const combinedHash = sha256(pdfFileHash + ':' + ch);
if (seenHashes.has(combinedHash)) continue; seenHashes.add(...); out.push(...)`. -/
def pdfChunkStep (fileHash : String) (st : IngestState) (ch : String) : IngestState :=
  let h := sha256 (fileHash ++ ":" ++ ch)
  if h ∈ st.seenHashes then st
  else ⟨h :: st.seenHashes, st.seenPdfFileHashes, st.uploaded ++ [⟨h, ch, "pdf-text"⟩]⟩

/-- Source: processPdfs 350-356 — skip the whole PDF when its byte-level hash was
seen, otherwise record it and process its chunks. -/
def ingestPdf (st : IngestState) (bytes : String) (chunks : List String) : IngestState :=
  let fh := sha256 bytes
  if fh ∈ st.seenPdfFileHashes then st
  else chunks.foldl (pdfChunkStep fh) ⟨st.seenHashes, fh :: st.seenPdfFileHashes, st.uploaded⟩

/-- One ingestion run: JSON-LD sources first, then the collected PDFs, with
the dedup sets empty at the start of the run. -/
def runIngest (jsonSources : List (List String))
    (pdfSources : List (String × List String)) : IngestState :=
  pdfSources.foldl (fun st p => ingestPdf st p.1 p.2)
    (jsonSources.foldl ingestJsonSource ⟨[], [], []⟩)

/-- Dedup invariant: uploaded fingerprints are recorded in the seen-set and
pairwise distinct, and JSON-LD records' fingerprints are their contents
(under the injective hash model). -/
def DedupInv (st : IngestState) : Prop :=
  (∀ r ∈ st.uploaded, r.fp ∈ st.seenHashes)
  ∧ st.uploaded.Pairwise (fun a b => a.fp ≠ b.fp)
  ∧ (∀ r ∈ st.uploaded, r.kind = "jsonld" → r.fp = r.content)

theorem jsonChunkStep_inv {st : IngestState} (hst : DedupInv st) (ch : String) :
    DedupInv (jsonChunkStep st ch) := by
  unfold jsonChunkStep
  by_cases hmem : sha256 ch ∈ st.seenHashes
  · rw [if_pos hmem]; exact hst
  · rw [if_neg hmem]
    obtain ⟨h1, h2, h3⟩ := hst
    refine ⟨?_, ?_, ?_⟩
    · intro r hr
      rcases List.mem_append.1 hr with hr1 | hr2
      · exact List.mem_cons.2 (Or.inr (h1 r hr1))
      · rcases List.mem_singleton.1 hr2 with rfl
        exact List.mem_cons.2 (Or.inl rfl)
    · rw [List.pairwise_append]
      refine ⟨h2, List.pairwise_singleton _ _, ?_⟩
      intro a ha b hb
      rcases List.mem_singleton.1 hb with rfl
      intro hEq
      apply hmem
      have hmem2 := h1 a ha
      rw [hEq] at hmem2
      exact hmem2
    · intro r hr hk
      rcases List.mem_append.1 hr with hr1 | hr2
      · exact h3 r hr1 hk
      · rcases List.mem_singleton.1 hr2 with rfl
        rfl

theorem pdfChunkStep_inv {st : IngestState} (hst : DedupInv st)
    (fileHash ch : String) : DedupInv (pdfChunkStep fileHash st ch) := by
  unfold pdfChunkStep
  by_cases hmem : sha256 (fileHash ++ ":" ++ ch) ∈ st.seenHashes
  · rw [if_pos hmem]; exact hst
  · rw [if_neg hmem]
    obtain ⟨h1, h2, h3⟩ := hst
    refine ⟨?_, ?_, ?_⟩
    · intro r hr
      rcases List.mem_append.1 hr with hr1 | hr2
      · exact List.mem_cons.2 (Or.inr (h1 r hr1))
      · rcases List.mem_singleton.1 hr2 with rfl
        exact List.mem_cons.2 (Or.inl rfl)
    · rw [List.pairwise_append]
      refine ⟨h2, List.pairwise_singleton _ _, ?_⟩
      intro a ha b hb
      rcases List.mem_singleton.1 hb with rfl
      intro hEq
      apply hmem
      have hmem2 := h1 a ha
      rw [hEq] at hmem2
      exact hmem2
    · intro r hr hk
      rcases List.mem_append.1 hr with hr1 | hr2
      · exact h3 r hr1 hk
      · rcases List.mem_singleton.1 hr2 with rfl
        have hk2 : ("pdf-text" : String) = "jsonld" := hk
        exact absurd hk2 (by decide)

theorem foldl_jsonChunk_inv : ∀ (chunks : List String) {st : IngestState},
    DedupInv st → DedupInv (chunks.foldl jsonChunkStep st) := by
  intro chunks
  induction chunks with
  | nil => intro st hst; exact hst
  | cons c rest ih => intro st hst; exact ih (jsonChunkStep_inv hst c)

theorem foldl_pdfChunk_inv (fileHash : String) :
    ∀ (chunks : List String) {st : IngestState},
    DedupInv st → DedupInv (chunks.foldl (pdfChunkStep fileHash) st) := by
  intro chunks
  induction chunks with
  | nil => intro st hst; exact hst
  | cons c rest ih => intro st hst; exact ih (pdfChunkStep_inv hst fileHash c)

theorem ingestPdf_inv {st : IngestState} (hst : DedupInv st)
    (bytes : String) (chunks : List String) :
    DedupInv (ingestPdf st bytes chunks) := by
  unfold ingestPdf
  by_cases h : sha256 bytes ∈ st.seenPdfFileHashes
  · rw [if_pos h]; exact hst
  · rw [if_neg h]
    exact foldl_pdfChunk_inv (sha256 bytes) chunks hst

theorem foldl_jsonSource_inv : ∀ (srcs : List (List String)) {st : IngestState},
    DedupInv st → DedupInv (srcs.foldl ingestJsonSource st) := by
  intro srcs
  induction srcs with
  | nil => intro st hst; exact hst
  | cons s rest ih =>
    intro st hst
    exact ih (foldl_jsonChunk_inv s hst)

theorem foldl_pdfSource_inv :
    ∀ (srcs : List (String × List String)) {st : IngestState},
    DedupInv st → DedupInv (srcs.foldl (fun st p => ingestPdf st p.1 p.2) st) := by
  intro srcs
  induction srcs with
  | nil => intro st hst; exact hst
  | cons s rest ih =>
    intro st hst
    exact ih (ingestPdf_inv hst s.1 s.2)

theorem runIngest_inv (jsonSources : List (List String))
    (pdfSources : List (String × List String)) :
    DedupInv (runIngest jsonSources pdfSources) := by
  unfold runIngest
  exact foldl_pdfSource_inv pdfSources
    (foldl_jsonSource_inv jsonSources ⟨by simp, List.Pairwise.nil, by simp⟩)

/-- Counterexample to claim C8 as stated: two different PDF files carrying a
chunk with identical content both upload it, because a PDF chunk's
fingerprint hashes `fileHash + ':' + content` and the file hashes differ —
the second chunk's fingerprint is NOT found in the seen-hash set. -/
theorem C8_counterexample :
    ((runIngest [] [("A", ["c"]), ("B", ["c"])]).uploaded.map
        (fun r => r.content)) = ["c", "c"]
    ∧ (runIngest [] [("A", ["c"]), ("B", ["c"])]).uploaded.length = 2
    ∧ (2 : Nat) ≠ 1 :=
  ⟨by decide, by decide, by decide⟩

/-- Claim C8 amended: within a run at most one vector record is uploaded per
distinct fingerprint (pairwise-distinct fingerprints among uploads); since
JSON-LD chunk fingerprints depend only on content, identical JSON-LD chunk
content uploads at most once across all sources; and a chunk whose
fingerprint is already in the seen-hash set is skipped.  PDF chunk
fingerprints additionally include the containing file's hash, so identical
content under different PDF files is uploaded once per file. -/
theorem C8_dedup_by_fingerprint (jsonSources : List (List String))
    (pdfSources : List (String × List String)) :
    (runIngest jsonSources pdfSources).uploaded.Pairwise (fun a b => a.fp ≠ b.fp)
    ∧ ((runIngest jsonSources pdfSources).uploaded.filter
        (fun r => decide (r.kind = "jsonld"))).Pairwise
        (fun a b => a.content ≠ b.content)
    ∧ (∀ st ch, sha256 ch ∈ st.seenHashes →
        (jsonChunkStep st ch).uploaded = st.uploaded)
    ∧ (∀ st fh ch, sha256 (fh ++ ":" ++ ch) ∈ st.seenHashes →
        (pdfChunkStep fh st ch).uploaded = st.uploaded) := by
  obtain ⟨h1, h2, h3⟩ := runIngest_inv jsonSources pdfSources
  refine ⟨h2, ?_, ?_, ?_⟩
  · refine List.Pairwise.imp_of_mem ?_ (h2.filter _)
    intro a b ha hb hfp
    have hak := (List.mem_filter.1 ha).2
    have hbk := (List.mem_filter.1 hb).2
    have ha2 := h3 a (List.mem_of_mem_filter ha) (by simpa using hak)
    have hb2 := h3 b (List.mem_of_mem_filter hb) (by simpa using hbk)
    rw [ha2, hb2] at hfp
    exact hfp
  · intro st ch hmem
    unfold jsonChunkStep
    rw [if_pos hmem]
  · intro st fh ch hmem
    unfold pdfChunkStep
    rw [if_pos hmem]
/-- Witness for C8's amended theorem at concrete inputs. -/
theorem C8_dedup_by_fingerprint_witness :
    ((runIngest [["c"]] []).uploaded.Pairwise (fun a b => a.fp ≠ b.fp))
    ∧ sha256 "c" ∈ (IngestState.mk ["c"] [] []).seenHashes
    ∧ (jsonChunkStep ⟨["c"], [], []⟩ "c").uploaded
        = (IngestState.mk ["c"] [] []).uploaded :=
  ⟨(C8_dedup_by_fingerprint [["c"]] []).1, by decide,
    (C8_dedup_by_fingerprint [["c"]] []).2.2.1 ⟨["c"], [], []⟩ "c" (by decide)⟩

/-! ### Intent classifier: `QueryService.detectChartIntentWithLLM` /
`detectAlertIntentWithLLM` (query.dto.ts 213-297, 300-369).

The completion service's raw text is a `String`; `JSON.parse` is an external
runtime primitive and is therefore a parameter (the claims quantify over
its outcome).  The code-fence stripping
`out.replace(/^```(?:json)?\s*|\s*```$/g, '').trim()` removes an anchored
leading fence, an anchored trailing fence, and surrounding whitespace. -/

/-- The fields of the `ChartIntent` structured output (query.dto.ts 40-48).
`lastRel` stands for the source's `last {value, unit}` field, `fromIso` /
`toIso` for `from` / `to`. -/
structure ChartIntent where
  wants_chart : Bool
  asset_urn : Option String
  metric : Option String
  lastRel : Option (Int × String)
  fromIso : Option String
  toIso : Option String
deriving DecidableEq

structure AlertIntent where
  wants_alert : Bool
  asset_urn : Option String
deriving DecidableEq

/-- The fail-soft result of a parse failure: wants_chart false, all other fields absent. -/
def noChartIntent : ChartIntent := ⟨false, none, none, none, none, none⟩

/-- The fail-soft alert intent: wants_alert false, no URN. -/
def noAlertIntent : AlertIntent := ⟨false, none⟩

/-- Strip an anchored leading code fence (` ```json ` or ` ``` `), an
anchored trailing ` ``` `, and trim surrounding whitespace. -/
def stripFences (s : String) : String :=
  let cs := s.data
  let cs1 := if beginsWith ("```json".data) cs then cs.drop 7
             else if beginsWith ("```".data) cs then cs.drop 3
             else cs
  let cs2 := if beginsWith ("```".data).reverse cs1.reverse
             then (cs1.reverse.drop 3).reverse
             else cs1
  String.mk (jsTrim cs2)

/-- Lines 279-297: parse the cleaned output, falling back to
`{ wants_chart: false }` when `JSON.parse` throws. -/
def detectChartIntentFromContent (parse : String → Option ChartIntent)
    (content : String) : ChartIntent :=
  match parse (stripFences content) with
  | some i => i
  | none => noChartIntent

/-- Lines 351-369: the alert analogue. -/
def detectAlertIntentFromContent (parse : String → Option AlertIntent)
    (content : String) : AlertIntent :=
  match parse (stripFences content) with
  | some i => i
  | none => noAlertIntent

/-- A parser that always fails (used to witness the fail-soft path). -/
def nullChartParse : String → Option ChartIntent := fun _ => none

def nullAlertParse : String → Option AlertIntent := fun _ => none

/-- Claim C9: whenever the completion service's raw output cannot be parsed
as structured data after stripping code-fence markers, the classifier
returns the negative intent (`{wants_chart: false}` resp.
`{wants_alert: false}`); being total functions, the embedded classifiers
never raise an error to the caller. -/
theorem C9_parse_failure_fails_soft (parseC : String → Option ChartIntent)
    (parseA : String → Option AlertIntent) (rawC rawA : String)
    (hC : parseC (stripFences rawC) = none)
    (hA : parseA (stripFences rawA) = none) :
    detectChartIntentFromContent parseC rawC = noChartIntent
    ∧ (detectChartIntentFromContent parseC rawC).wants_chart = false
    ∧ detectAlertIntentFromContent parseA rawA = noAlertIntent
    ∧ (detectAlertIntentFromContent parseA rawA).wants_alert = false := by
  unfold detectChartIntentFromContent detectAlertIntentFromContent
  rw [hC, hA]
  exact ⟨rfl, rfl, rfl, rfl⟩
/-- Witness for C9: the always-failing parser on a non-JSON reply. -/
theorem C9_parse_failure_fails_soft_witness :
    nullChartParse (stripFences "not json") = none
    ∧ detectChartIntentFromContent nullChartParse "not json" = noChartIntent
    ∧ detectAlertIntentFromContent nullAlertParse "not json" = noAlertIntent :=
  ⟨rfl,
    (C9_parse_failure_fails_soft nullChartParse nullAlertParse
      "not json" "not json" rfl rfl).1,
    (C9_parse_failure_fails_soft nullChartParse nullAlertParse
      "not json" "not json" rfl rfl).2.2.1⟩

/-! ### Query Orchestrator: `QueryService.handleQuery` and the chart/alert
short-circuits (query.dto.ts 372-492, 647-717).

External services are modelled by an environment `Env` carrying their
responses; the orchestrator returns, besides the result, the trace of
external calls it performed and (when made) the message list passed to the
final synthesis `chatCompletion`.  Both intent detectors call
`ionosservice.chatCompletion` — the completion service — once; these calls
appear in the trace as `chartClassifyCompletion` / `alertClassifyCompletion`. -/

structure ChatMsg where
  role : String
  content : String
deriving DecidableEq

structure ChartPoint where
  t : String
  v : Int
deriving DecidableEq

structure ChartMeta where
  assetUrn : String
  metric : Option String
  source : String
deriving DecidableEq

structure ChartResult where
  series : List ChartPoint
  meta : ChartMeta
deriving DecidableEq

inductive Eff where
  | chartClassifyCompletion
  | alertClassifyCompletion
  | seriesFetch
  | alertFetch
  | milvusSearchCall
  | synthesisCompletion
deriving DecidableEq

/-- Responses of the external collaborators for one request. -/
structure Env where
  hasPg : Bool
  chartIntent : ChartIntent
  alertIntent : AlertIntent
  pgRows : List ChartPoint
  alertRows : List ChartPoint
  contextText : String
  completionReply : String

/-- JS truthiness of an optional string (`null`/`undefined`/`""` are falsy). -/
def optTruthy : Option String → Bool
  | none => false
  | some s => decide (s ≠ "")

/-- Source: `maybeGetChartData` (372-402) — find the last user turn, classify it (one
completion-service call), and fetch from Postgres when the intent is
positive with a truthy URN, both window bounds resolved and the pool
configured.  `fetchSeriesFromPostgres` itself degrades to an empty series
on a store error, which `Env.pgRows` covers. -/
def maybeGetChartData (env : Env) (messages : List ChatMsg) :
    Option ChartResult × List Eff :=
  match (messages.reverse).find? (fun m => decide (m.role = "user")) with
  | none => (none, [])
  | some _ =>
    let nlu := env.chartIntent
    if nlu.wants_chart = true ∧ optTruthy nlu.asset_urn = true then
      if env.hasPg = true ∧ nlu.fromIso.getD "" ≠ "" ∧ nlu.toIso.getD "" ≠ "" then
        (some ⟨env.pgRows, ⟨nlu.asset_urn.getD "", nlu.metric, "postgres"⟩⟩,
          [Eff.chartClassifyCompletion, Eff.seriesFetch])
      else (none, [Eff.chartClassifyCompletion])
    else (none, [Eff.chartClassifyCompletion])

/-- Source: `Math.min(...vals)` over a non-empty spread, `none` for the empty list. -/
def jsMathMin : List Int → Option Int
  | [] => none
  | v :: rest => some (rest.foldl min v)

def jsMathMax : List Int → Option Int
  | [] => none
  | v :: rest => some (rest.foldl max v)

structure ChartSummaryS where
  summary : String
  first10 : List ChartPoint
  last10 : List ChartPoint

/-- Source: `formatChartSummary` (423-440).  `first10`/`last10` slice 100 elements;
`Number.isFinite` filters nothing on exact `Int` values. -/
def formatChartSummary (chart : ChartResult) : ChartSummaryS :=
  let pts := chart.series.length
  let first10 := chart.series.take 100
  let last10 := chart.series.drop (pts - 100)
  let vals := chart.series.map (fun p => p.v)
  let stats :=
    match jsMathMin vals, jsMathMax vals with
    | some m, some M => ", Min: " ++ toString m ++ ", Max: " ++ toString M
    | _, _ => ""
  { summary := "Live data (" ++ chart.meta.metric.getD "metric" ++ ") for "
      ++ chart.meta.assetUrn ++ "\n" ++ "Points: " ++ toString pts ++ stats,
    first10 := first10, last10 := last10 }

inductive QueryResult where
  | chartSummary (reply : String) (chart : ChartResult)
      (first10 last10 : List ChartPoint)
  | chartNoData (reply : String) (chart : ChartResult)
  | alerts (reply : String) (alertRows : List ChartPoint)
  | llmReply (reply : String)
deriving DecidableEq

/-- Source: `getChartSummaryIfAny` (443-467).  In the source, `if (chart?.series)`
tests an array, which is truthy in JS even when empty: every non-null chart
takes the summary branch, and the `chart?.series.length === 0` "no data"
branch (which would build `QueryResult.chartNoData`) can only be evaluated
when `chart` is null — where `chart?.series` is `undefined` — so it never
fires. -/
def getChartSummaryIfAny (env : Env) (messages : List ChatMsg) :
    Option QueryResult × List Eff :=
  match maybeGetChartData env messages with
  | (some chart, tr) =>
    let s := formatChartSummary chart
    (some (QueryResult.chartSummary
        ("Here’s the live chart summary:\n\n" ++ s.summary)
        chart s.first10 s.last10), tr)
  | (none, tr) => (none, tr)

/-- Source: `maybeGetAlertData` (404-420) — classify (one completion-service call)
and fetch the alert list when positive with a truthy URN. -/
def maybeGetAlertData (env : Env) (messages : List ChatMsg) :
    Option (List ChartPoint) × List Eff :=
  match (messages.reverse).find? (fun m => decide (m.role = "user")) with
  | none => (none, [])
  | some _ =>
    let nlu := env.alertIntent
    if nlu.wants_alert = true ∧ optTruthy nlu.asset_urn = true then
      (some env.alertRows, [Eff.alertClassifyCompletion, Eff.alertFetch])
    else (none, [Eff.alertClassifyCompletion])

/-- Source: `getAlertsDataIfAny` (470-492), with the same array-truthiness shape as
the chart variant. -/
def getAlertsDataIfAny (env : Env) (messages : List ChatMsg) :
    Option QueryResult × List Eff :=
  match maybeGetAlertData env messages with
  | (some rows, tr) =>
    (some (QueryResult.alerts "Here’s the live alerts:\n\n" rows), tr)
  | (none, tr) => (none, tr)

/-- Source: `Array.prototype.join(sep)`. -/
def joinWith (sep : String) : List String → String
  | [] => ""
  | [x] => x
  | x :: rest => x ++ sep ++ joinWith sep rest

/-- Source: `String.prototype.trim` on `String`. -/
def jsTrimString (s : String) : String := String.mk (jsTrim s.data)

/-- Source: `flattenChatHistoryToString` (107-112) — drop whitespace-only turns,
render each as `role: content.trim()`, join with newlines. -/
def flattenChatHistoryToString (messages : List ChatMsg) : String :=
  joinWith "\n"
    ((messages.filter (fun m => decide (0 < (jsTrimString m.content).length))).map
      (fun m => m.role ++ ": " ++ jsTrimString m.content))

/-- The fixed behavioural system prompt of `handleQuery` (660-669), with the
selected store ids joined at the end. -/
def xanaBasePrompt (vectorStoreIds : List String) : String :=
  "You are XANA — an industrial machine support assistant for shop-floor operators and technicians.\n"
  ++ "- Use provided machine files/context (vector store file_search) first; quote exact parameter names, menu paths, and setpoints from docs, and dont tell that you are provided a context.\n"
  ++ "- If docs are empty or unrelated, say so briefly and continue with best-practice guidance.\n"
  ++ "- Safety first: never suggest bypassing interlocks/guards; reference E-Stop and LOTO when relevant.\n"
  ++ "- Style: short, scannable, practical; metric units; don’t invent values. If uncertain, say “Not enough data” and ask one targeted question.\n"
  ++ "- Include preventive maintenance tips, part numbers, and specs only if present in the data.\n"
  ++ "- selected asset or product name explicitly for questions by the user is "
  ++ joinWith ", " vectorStoreIds

/-- Source: `let MAX_MESSAGES = 10`. -/
def MAX_MESSAGES : Nat := 10

structure HQOut where
  result : Option QueryResult
  trace : List Eff
  sentToCompletion : Option (List ChatMsg)

/-- Source: `handleQuery` (648-717) — guard on empty `messages`, try the chart
short-circuit, then the alert short-circuit, else run the semantic
retriever, append its context to the system prompt, keep the most recent
10 turns (`messages.slice(-MAX_MESSAGES)`), and send the completion service
a SINGLE user message whose content is the flattened rendering of
`[systemPrompt, ...recentMessages]`. -/
def handleQuery (env : Env) (vectorStoreIds : List String)
    (messages : List ChatMsg) : HQOut :=
  if messages.length = 0 then ⟨none, [], none⟩
  else
    match getChartSummaryIfAny env messages with
    | (some res, tra) => ⟨some res, tra, none⟩
    | (none, tra) =>
      match getAlertsDataIfAny env messages with
      | (some res, trb) => ⟨some res, tra ++ trb, none⟩
      | (none, trb) =>
        let systemContent := xanaBasePrompt vectorStoreIds
          ++ "\n\nContext for the question:\n\n" ++ env.contextText
        let recentMessages := messages.drop (messages.length - MAX_MESSAGES)
        let fullMessages := ChatMsg.mk "system" systemContent :: recentMessages
        let sent := [ChatMsg.mk "user" (flattenChatHistoryToString fullMessages)]
        ⟨some (QueryResult.llmReply env.completionReply),
          tra ++ trb ++ [Eff.milvusSearchCall, Eff.synthesisCompletion],
          some sent⟩

/-- Calls that hit the completion service (`ionosservice.chatCompletion`). -/
def isCompletionCall : Eff → Bool
  | Eff.chartClassifyCompletion => true
  | Eff.alertClassifyCompletion => true
  | Eff.synthesisCompletion => true
  | _ => false

def completionCallCount (tr : List Eff) : Nat :=
  (tr.filter isCompletionCall).length

def isChartSummaryResult : Option QueryResult → Bool
  | some (QueryResult.chartSummary _ _ _ _) => true
  | _ => false

def isNoDataResult : Option QueryResult → Bool
  | some (QueryResult.chartNoData _ _) => true
  | _ => false

/-! #### The chart short-circuit path -/

theorem maybeGetChartData_pos (env : Env) (messages : List ChatMsg) (u : ChatMsg)
    (hfind : (messages.reverse).find? (fun m => decide (m.role = "user")) = some u)
    (hw : env.chartIntent.wants_chart = true)
    (hurn : optTruthy env.chartIntent.asset_urn = true)
    (hf : env.chartIntent.fromIso.getD "" ≠ "")
    (ht : env.chartIntent.toIso.getD "" ≠ "")
    (hpg : env.hasPg = true) :
    maybeGetChartData env messages
      = (some ⟨env.pgRows,
          ⟨env.chartIntent.asset_urn.getD "", env.chartIntent.metric, "postgres"⟩⟩,
        [Eff.chartClassifyCompletion, Eff.seriesFetch]) := by
  simp only [maybeGetChartData, hfind]
  rw [if_pos ⟨hw, hurn⟩, if_pos ⟨hpg, hf, ht⟩]

theorem maybeGetChartData_negIntent (env : Env) (messages : List ChatMsg)
    (hchart : env.chartIntent.wants_chart = false) :
    (maybeGetChartData env messages).1 = none := by
  unfold maybeGetChartData
  cases hfind : (messages.reverse).find? (fun m => decide (m.role = "user")) with
  | none => rfl
  | some u =>
    have hcond : ¬(env.chartIntent.wants_chart = true
        ∧ optTruthy env.chartIntent.asset_urn = true) := by
      intro hco
      rw [hchart] at hco
      exact absurd hco.1 (by simp)
    rw [if_neg hcond]

theorem getChartSummaryIfAny_fst_neg (env : Env) (messages : List ChatMsg)
    (hchart : env.chartIntent.wants_chart = false) :
    (getChartSummaryIfAny env messages).1 = none := by
  have h := maybeGetChartData_negIntent env messages hchart
  unfold getChartSummaryIfAny
  rcases hmb : maybeGetChartData env messages with ⟨o, tr⟩
  rw [hmb] at h
  have ho : o = none := h
  subst ho
  rfl

theorem maybeGetAlertData_negIntent (env : Env) (messages : List ChatMsg)
    (halert : env.alertIntent.wants_alert = false) :
    (maybeGetAlertData env messages).1 = none := by
  unfold maybeGetAlertData
  cases hfind : (messages.reverse).find? (fun m => decide (m.role = "user")) with
  | none => rfl
  | some u =>
    have hcond : ¬(env.alertIntent.wants_alert = true
        ∧ optTruthy env.alertIntent.asset_urn = true) := by
      intro hco
      rw [halert] at hco
      exact absurd hco.1 (by simp)
    rw [if_neg hcond]

theorem getAlertsDataIfAny_fst_neg (env : Env) (messages : List ChatMsg)
    (halert : env.alertIntent.wants_alert = false) :
    (getAlertsDataIfAny env messages).1 = none := by
  have h := maybeGetAlertData_negIntent env messages halert
  unfold getAlertsDataIfAny
  rcases hmb : maybeGetAlertData env messages with ⟨o, tr⟩
  rw [hmb] at h
  have ho : o = none := h
  subst ho
  rfl

/-- The behaviour claimed for the resolvable-chart-intent, non-empty-series
path, as established for the code: the structured summary result with
count/min/max and 100-capped previews, the exact external-call trace, no
synthesis call — and exactly ONE completion-service call (the chart-intent
classification), not zero. -/
def ChartPathOutcome (env : Env) (vectorStoreIds : List String)
    (messages : List ChatMsg) (urn : String) : Prop :=
  ∃ m M : Int,
    jsMathMin (env.pgRows.map (fun q => q.v)) = some m
    ∧ jsMathMax (env.pgRows.map (fun q => q.v)) = some M
    ∧ (handleQuery env vectorStoreIds messages).result
        = some (QueryResult.chartSummary
            ("Here’s the live chart summary:\n\n"
              ++ ("Live data (" ++ env.chartIntent.metric.getD "metric"
                ++ ") for " ++ urn ++ "\n" ++ "Points: "
                ++ toString env.pgRows.length
                ++ (", Min: " ++ toString m ++ ", Max: " ++ toString M)))
            ⟨env.pgRows, ⟨urn, env.chartIntent.metric, "postgres"⟩⟩
            (env.pgRows.take 100) (env.pgRows.drop (env.pgRows.length - 100)))
    ∧ (env.pgRows.take 100).length ≤ 100
    ∧ (env.pgRows.drop (env.pgRows.length - 100)).length ≤ 100
    ∧ (handleQuery env vectorStoreIds messages).trace
        = [Eff.chartClassifyCompletion, Eff.seriesFetch]
    ∧ (handleQuery env vectorStoreIds messages).sentToCompletion = none
    ∧ completionCallCount (handleQuery env vectorStoreIds messages).trace = 1
    ∧ Eff.synthesisCompletion ∉ (handleQuery env vectorStoreIds messages).trace

/-- Claim C1 amended: on a conversation whose last user turn yields a
positive chart intent with resolved `from`/`to` and a non-empty fetched
series, `handleQuery` returns the structured summary result (point count,
min and max in the summary; previews capped at 100) without the synthesis
completion call; the single completion-service call on this path is the
chart-intent classification (call count 1, not 0). -/
theorem C1_chart_path_behaviour (env : Env) (vectorStoreIds : List String)
    (messages : List ChatMsg) (urn f t : String)
    (hmsg : messages.length ≠ 0)
    (huser : ∃ u, (messages.reverse).find? (fun m => decide (m.role = "user")) = some u)
    (hw : env.chartIntent.wants_chart = true)
    (hurn : env.chartIntent.asset_urn = some urn) (hurn2 : urn ≠ "")
    (hfrom : env.chartIntent.fromIso = some f) (hf : f ≠ "")
    (hto : env.chartIntent.toIso = some t) (ht : t ≠ "")
    (hpg : env.hasPg = true)
    (hser : env.pgRows ≠ []) :
    ChartPathOutcome env vectorStoreIds messages urn := by
  obtain ⟨u, hfind⟩ := huser
  have hurnT : optTruthy env.chartIntent.asset_urn = true := by
    rw [hurn]
    simp [optTruthy, hurn2]
  have hgetD : env.chartIntent.asset_urn.getD "" = urn := by rw [hurn]; rfl
  have hfT : env.chartIntent.fromIso.getD "" ≠ "" := by rw [hfrom]; exact hf
  have htT : env.chartIntent.toIso.getD "" ≠ "" := by rw [hto]; exact ht
  have hmb := maybeGetChartData_pos env messages u hfind hw hurnT hfT htT hpg
  rw [hgetD] at hmb
  obtain ⟨p, pr, hpr⟩ := List.exists_cons_of_ne_nil hser
  have hmin : jsMathMin (env.pgRows.map (fun q => q.v))
      = some ((pr.map (fun q => q.v)).foldl min p.v) := by rw [hpr]; rfl
  have hmax : jsMathMax (env.pgRows.map (fun q => q.v))
      = some ((pr.map (fun q => q.v)).foldl max p.v) := by rw [hpr]; rfl
  have hg : getChartSummaryIfAny env messages
      = (some (QueryResult.chartSummary
          ("Here’s the live chart summary:\n\n"
            ++ ("Live data (" ++ env.chartIntent.metric.getD "metric"
              ++ ") for " ++ urn ++ "\n" ++ "Points: "
              ++ toString env.pgRows.length
              ++ (", Min: " ++ toString ((pr.map (fun q => q.v)).foldl min p.v)
                ++ ", Max: " ++ toString ((pr.map (fun q => q.v)).foldl max p.v))))
          ⟨env.pgRows, ⟨urn, env.chartIntent.metric, "postgres"⟩⟩
          (env.pgRows.take 100) (env.pgRows.drop (env.pgRows.length - 100))),
        [Eff.chartClassifyCompletion, Eff.seriesFetch]) := by
    unfold getChartSummaryIfAny
    rw [hmb]
    simp only [formatChartSummary]
    rw [hmin, hmax]
  have hhq : handleQuery env vectorStoreIds messages
      = ⟨(getChartSummaryIfAny env messages).1,
         (getChartSummaryIfAny env messages).2, none⟩ := by
    unfold handleQuery
    rw [if_neg hmsg, hg]
  rw [hg] at hhq
  refine ⟨(pr.map (fun q => q.v)).foldl min p.v,
    (pr.map (fun q => q.v)).foldl max p.v, hmin, hmax, ?_, ?_, ?_, ?_, ?_, ?_, ?_⟩
  · rw [hhq]
  · rw [List.length_take]; omega
  · rw [List.length_drop]; omega
  · rw [hhq]
  · rw [hhq]
  · rw [hhq]; rfl
  · rw [hhq]
    show Eff.synthesisCompletion ∉ [Eff.chartClassifyCompletion, Eff.seriesFetch]
    decide

/-! #### Concrete request instances -/

def msgsChart : List ChatMsg :=
  [⟨"user", "plot temperature for urn:x from 2025-01-01 to 2025-01-02"⟩]

def chartIntentX : ChartIntent :=
  ⟨true, some "urn:x", some "temperature", none,
    some "2025-01-01T00:00:00.000Z", some "2025-01-02T00:00:00.000Z"⟩

/-- A request with a resolvable chart intent and a two-point series. -/
def envChart : Env :=
  ⟨true, chartIntentX, noAlertIntent,
    [⟨"2025-01-01T10:00:00.000Z", 5⟩, ⟨"2025-01-01T11:00:00.000Z", 3⟩],
    [], "", ""⟩

/-- The same request with the time-series store returning an empty series. -/
def envChartEmpty : Env :=
  ⟨true, chartIntentX, noAlertIntent, [], [], "", ""⟩

/-- A request with neither chart nor alert intent (semantic-retrieval path). -/
def envSem : Env :=
  ⟨true, noChartIntent, noAlertIntent, [], [], "SOURCE CONTEXT", "the reply"⟩

def msgs15 : List ChatMsg :=
  [⟨"user", "m1"⟩, ⟨"assistant", "m2"⟩, ⟨"user", "m3"⟩, ⟨"assistant", "m4"⟩,
   ⟨"user", "m5"⟩, ⟨"assistant", "m6"⟩, ⟨"user", "m7"⟩, ⟨"assistant", "m8"⟩,
   ⟨"user", "m9"⟩, ⟨"assistant", "m10"⟩, ⟨"user", "m11"⟩, ⟨"assistant", "m12"⟩,
   ⟨"user", "m13"⟩, ⟨"assistant", "m14"⟩, ⟨"user", "m15"⟩]

/-- Counterexample to claim C1 as stated: on a resolvable chart intent with
a non-empty series the orchestrator DOES call the completion service — the
chart-intent classifier (`detectChartIntentWithLLM`) invokes
`ionosservice.chatCompletion` once, so the call count is 1, not 0. -/
theorem C1_counterexample :
    envChart.chartIntent.wants_chart = true
    ∧ envChart.pgRows ≠ []
    ∧ isChartSummaryResult (handleQuery envChart ["urn:x"] msgsChart).result = true
    ∧ completionCallCount (handleQuery envChart ["urn:x"] msgsChart).trace = 1
    ∧ (1 : Nat) ≠ 0 :=
  ⟨rfl, by decide, by decide, by decide, by decide⟩

/-- Witness for C1's amended theorem at the concrete request. -/
theorem C1_chart_path_behaviour_witness :
    (msgsChart.length ≠ 0 ∧ envChart.chartIntent.wants_chart = true
      ∧ envChart.hasPg = true ∧ envChart.pgRows ≠ [])
    ∧ ChartPathOutcome envChart ["urn:x"] msgsChart "urn:x" :=
  ⟨⟨by decide, rfl, rfl, by decide⟩,
    C1_chart_path_behaviour envChart ["urn:x"] msgsChart "urn:x"
      "2025-01-01T00:00:00.000Z" "2025-01-02T00:00:00.000Z"
      (by decide) ⟨⟨"user", "plot temperature for urn:x from 2025-01-01 to 2025-01-02"⟩, by decide⟩
      rfl rfl (by decide) rfl (by decide) rfl
      (by decide) rfl (by decide)⟩

/-- Claim C2 (code bug): with a resolved chart intent and an EMPTY fetched
series, `handleQuery` returns the chart-summary result with `Points: 0`,
not the "no data" result: in `getChartSummaryIfAny`, `if (chart?.series)`
is truthy for an empty array, so the `series.length === 0` branch that
builds `No live data available for …` is unreachable. -/
theorem C2_empty_series_returns_summary_not_no_data :
    envChartEmpty.pgRows = []
    ∧ (handleQuery envChartEmpty ["urn:x"] msgsChart).result
        = some (QueryResult.chartSummary
            "Here’s the live chart summary:\n\nLive data (temperature) for urn:x\nPoints: 0"
            ⟨[], ⟨"urn:x", some "temperature", "postgres"⟩⟩ [] [])
    ∧ isNoDataResult (handleQuery envChartEmpty ["urn:x"] msgsChart).result = false
    ∧ completionCallCount (handleQuery envChartEmpty ["urn:x"] msgsChart).trace = 1 :=
  ⟨rfl, by decide, by decide, by decide⟩

/-- Counterexample to claim C6 as stated: on the semantic-retrieval path the
list actually sent to the completion service is a SINGLE `user` message
(the flattened rendering), not one system turn followed by the 10 most
recent turns — with 15 prior turns its length is 1, not 11, and its only
role is `user`, not `system`. -/
theorem C6_counterexample :
    ((handleQuery envSem ["vs1"] msgs15).sentToCompletion.getD []).length = 1
    ∧ ((handleQuery envSem ["vs1"] msgs15).sentToCompletion.getD []).map
        (fun m => m.role) = ["user"]
    ∧ (1 : Nat) ≠ 11 ∧ ("user" : String) ≠ "system" :=
  ⟨by decide, by decide, by decide, by decide⟩

/-- Claim C6 amended: on the semantic-retrieval path the orchestrator
assembles one system turn (fixed prompt plus appended retrieval context)
followed by the most recent `min 10 n` conversation turns in original
order regardless of role (with 15 prior turns, exactly the last 10), and
then sends the completion service a single user message whose content is
the flattened rendering of that assembled list (whitespace-only turns are
dropped by the flattening). -/
theorem C6_final_message_assembly (env : Env) (vectorStoreIds : List String)
    (messages : List ChatMsg)
    (hmsg : messages.length ≠ 0)
    (hchart : env.chartIntent.wants_chart = false)
    (halert : env.alertIntent.wants_alert = false) :
    (handleQuery env vectorStoreIds messages).sentToCompletion
      = some [⟨"user", flattenChatHistoryToString
          (⟨"system", xanaBasePrompt vectorStoreIds
              ++ "\n\nContext for the question:\n\n" ++ env.contextText⟩
            :: messages.drop (messages.length - MAX_MESSAGES))⟩]
    ∧ (messages.drop (messages.length - MAX_MESSAGES)).length ≤ 10
    ∧ (messages.length = 15 →
        messages.drop (messages.length - MAX_MESSAGES) = messages.drop 5) := by
  rcases hg : getChartSummaryIfAny env messages with ⟨og, trg⟩
  have hog : og = none := by
    have h2 := getChartSummaryIfAny_fst_neg env messages hchart
    rw [hg] at h2
    exact h2
  subst hog
  rcases ha : getAlertsDataIfAny env messages with ⟨oa, tra⟩
  have hoa : oa = none := by
    have h2 := getAlertsDataIfAny_fst_neg env messages halert
    rw [ha] at h2
    exact h2
  subst hoa
  refine ⟨?_, ?_, ?_⟩
  · unfold handleQuery
    rw [if_neg hmsg, hg, ha]
  · rw [List.length_drop]
    have : MAX_MESSAGES = 10 := rfl
    omega
  · intro h15
    rw [h15]
    rfl
/-- Witness for C6's amended theorem at the 15-turn conversation. -/
theorem C6_final_message_assembly_witness :
    (msgs15.length ≠ 0 ∧ envSem.chartIntent.wants_chart = false
      ∧ envSem.alertIntent.wants_alert = false ∧ msgs15.length = 15)
    ∧ ((handleQuery envSem ["vs1"] msgs15).sentToCompletion
        = some [⟨"user", flattenChatHistoryToString
            (⟨"system", xanaBasePrompt ["vs1"]
                ++ "\n\nContext for the question:\n\n" ++ envSem.contextText⟩
              :: msgs15.drop (msgs15.length - MAX_MESSAGES))⟩]
      ∧ (msgs15.drop (msgs15.length - MAX_MESSAGES)).length ≤ 10
      ∧ (msgs15.length = 15 →
          msgs15.drop (msgs15.length - MAX_MESSAGES) = msgs15.drop 5)) :=
  ⟨⟨by decide, rfl, rfl, by decide⟩,
    C6_final_message_assembly envSem ["vs1"] msgs15 (by decide) rfl rfl⟩

end XanaAI
